import Mathlib

/-!
Verification of the congestion-forecasting core of the Trafico-y-balenbisi
repository: the empirical Markov-chain estimator / multi-step predictor in
`markov.py` and the logistic-regression training helpers in `ml_model.py`,
`ml_modelos.py` and `modelos.py`, together with the dashboard façade
`get_logreg_model` of `app.py`.

The embedding works over exact rationals (`ℚ`) in place of IEEE floats and
models a Python exception that escapes a function as `Except.error`.
-/

/-! ## Markov estimator and predictor (`markov.py`, `predict_congestion`) -/

/-- Embeds the membership test `i in estados` of `markov.py`, where
`estados = [0, 1, 2, 3]`. -/
def inEstados (x : Int) : Bool :=
  x == 0 || x == 1 || x == 2 || x == 3

/-- The consecutive pairs `(estado, next)` produced by
`df['next'] = df['estado'].shift(-1)` followed by `dropna(subset=['next'])`
in `markov.py`: each row except the last, paired with its successor. -/
def transPairs : List Int → List (Int × Int)
  | a :: b :: rest => (a, b) :: transPairs (b :: rest)
  | _ => []

/-- The guard of the counting loop of `markov.py`:
`if i in estados and j in estados` together with the selection of the
departure state `i`. -/
def validTrans (i : Int) (p : Int × Int) : Bool :=
  inEstados p.1 && inEstados p.2 && p.1 == i

/-- `cuentas[(i, j)]` of `markov.py`: the number of consecutive pairs equal
to `(i, j)` whose two states both lie in `estados`. -/
def cuentas (s : List Int) (i j : Int) : Nat :=
  (transPairs s).countP (fun p => validTrans i p && p.2 == j)

/-- `total_por_estado[i]` of `markov.py`: the number of consecutive pairs
departing from state `i` whose two states both lie in `estados`. -/
def totalPorEstado (s : List Int) (i : Int) : Nat :=
  (transPairs s).countP (validTrans i)

abbrev Vec4 := Fin 4 → ℚ

abbrev Mat4 := Fin 4 → Fin 4 → ℚ

/-- 4×4 matrix product, as used by `np.linalg.matrix_power`. -/
def matMul (A B : Mat4) : Mat4 :=
  fun i j => ∑ k, A i k * B k j

/-- The identity matrix, `np.linalg.matrix_power(P, 0)`. -/
def idMat : Mat4 :=
  fun i j => if i = j then 1 else 0

/-- `np.linalg.matrix_power(P, n)`. -/
def matPow (A : Mat4) : Nat → Mat4
  | 0 => idMat
  | n + 1 => matMul (matPow A n) A

/-- Row vector times matrix, `v0.dot(Pn)` of `markov.py`. -/
def vecMul (v : Vec4) (A : Mat4) : Vec4 :=
  fun j => ∑ i, v i * A i j

/-- The transition matrix `P` of `markov.py`: initialized to zeros, and row
`i` filled with `cuentas[(i, j)] / total` only when `total_por_estado[i] > 0`
(rows with no observed departures are left all-zero). -/
def Pmat (s : List Int) : Mat4 :=
  fun i j =>
    if 0 < totalPorEstado s (i.val : Int) then
      (cuentas s (i.val : Int) (j.val : Int) : ℚ) / (totalPorEstado s (i.val : Int) : ℚ)
    else 0

/-- One-hot probability vector at a given state index. -/
def oneHot (m : Fin 4) : Vec4 :=
  fun j => if j = m then 1 else 0

/-- Embeds `v0 = np.zeros(4); v0[ultimo] = 1.0` of `markov.py`, with numpy
indexing semantics: indices `0..3` address directly, `-4..-1` wrap around,
and any other index raises `IndexError` (modelled as `none`). -/
def mkOneHot (u : Int) : Option Vec4 :=
  if 0 ≤ u ∧ u < 4 then some (fun i => if (i.val : Int) = u then 1 else 0)
  else if -4 ≤ u ∧ u < 0 then some (fun i => if (i.val : Int) = u + 4 then 1 else 0)
  else none

/-- The forecast distribution `pi_n = v0.dot(np.linalg.matrix_power(P, pasos))`
of `markov.py`, for the transition matrix estimated from `s`. -/
def forecastVec (s : List Int) (v0 : Vec4) (pasos : Nat) : Vec4 :=
  vecMul v0 (matPow (Pmat s) pasos)

/-- Python exceptions that can escape `predict_congestion`
(`IndexError` from `iloc[-1]` on an empty frame or from the out-of-bounds
one-hot write).  `invalidDistribution` stands for the `InvalidDistributionError`
named by the specification; no code path produces it. -/
inductive MarkovError
  | indexError
  | invalidDistribution
deriving DecidableEq

/-- The post-sort pipeline of `predict_congestion`: take the state column in
timestamp order, build the one-hot vector for the last state, and return
`pi_n[2]`.  An empty history or an unaddressable last state raises
`IndexError`. -/
def predictFromStates (s : List Int) (pasos : Nat) : Except MarkovError ℚ :=
  match s.getLast? with
  | none => Except.error MarkovError.indexError
  | some ultimo =>
    match mkOneHot ultimo with
    | none => Except.error MarkovError.indexError
    | some v0 => Except.ok (forecastVec s v0 pasos 2)

/-- Insert one `(timestamp, estado)` pair into a timestamp-ordered list. -/
def insertByTs (x : ℚ × Int) : List (ℚ × Int) → List (ℚ × Int)
  | [] => [x]
  | y :: ys => if x.1 ≤ y.1 then x :: y :: ys else y :: insertByTs x ys

/-- Embeds `df.sort_values('timestamp')` of `markov.py` (an insertion sort by
timestamp; on the strictly increasing timestamps used here it agrees with any
sorting algorithm). -/
def sortByTs : List (ℚ × Int) → List (ℚ × Int)
  | [] => []
  | x :: xs => insertByTs x (sortByTs xs)

/-- `predict_congestion(current_df, pasos)` of `markov.py` on a well-typed
history of `(timestamp, estado)` pairs: sort by timestamp, estimate the
transition matrix from consecutive in-range pairs, raise the matrix to the
`pasos`-th power, and return the congestion entry `pi_n[2]` of the projected
distribution. -/
def predict_congestion (hist : List (ℚ × Int)) (pasos : Nat) : Except MarkovError ℚ :=
  predictFromStates ((sortByTs hist).map Prod.snd) pasos

/-- Whether a `predict_congestion` outcome is the `InvalidDistributionError`
rejection demanded by the specification. -/
def isInvalidDistError : Except MarkovError ℚ → Bool
  | Except.error MarkovError.invalidDistribution => true
  | _ => false

/-- The strictly periodic state sequence `0,1,2,3,0,1,2,3,…` of length `n`. -/
def cyc (n : Nat) : List Int :=
  (List.range n).map (fun k => ((k % 4 : Nat) : Int))

/-- The pure cyclic permutation matrix sending state `i` to state `i + 1`
(mod 4). -/
def cyclicMat : Mat4 :=
  fun i j => if j = i + 1 then 1 else 0

/-! ## Feature builder and classifier trainer
(`ml_model.py`, `ml_modelos.py`, `modelos.py`, `app.py`) -/

/-- The label column `objetivo` built by `preparar_features` of `ml_model.py`
(identically in `ml_modelos.py`):
`df["objetivo"] = (df["estado"].shift(-pasos) >= 2).astype(int)` followed by
`dropna`.  `shift(-pasos)` yields `NaN` on the trailing `pasos` rows, the
comparison `NaN >= 2` is `False`, and `astype(int)` turns it into `0`, so the
column holds no `NaN` and `dropna` removes nothing: one label per input row. -/
def preparar_features_objetivo (estados : List Int) (pasos : Nat) : List Int :=
  (List.range estados.length).map fun i =>
    match estados.get? (i + pasos) with
    | some s => if 2 ≤ s then 1 else 0
    | none => 0

/-- The label column `y` built by `train_logreg` of `modelos.py`:
`df_hist["y"] = df_hist["estado"].shift(-15)`, then `dropna(subset=["y"])`
(which here drops the trailing 15 rows), then `y = (df_hist["y"] >= 2)`. -/
def train_logreg_y (estados : List Int) : List Int :=
  (List.range (estados.length - 15)).map fun i =>
    if 2 ≤ estados.getD (i + 15) 0 then 1 else 0

/-- The message of the `ValueError` raised by `entrenar_logreg` of
`ml_model.py` when the history has fewer than 100 rows. -/
def insufficientMsg : String := "Histórico insuficiente para entrenar (≥ 100 filas)."

/-- The size guard of `entrenar_logreg` of `ml_model.py`:
`if df_hist.empty or len(df_hist) < 100: raise ValueError(...)`. -/
def entrenar_logreg_gate (n : Nat) : Except String Unit :=
  if n < 100 then Except.error insufficientMsg else Except.ok ()

/-- Modelled from scikit-learn: `accuracy_score(y_true, y_pred)` is the
fraction of positions where the two label lists agree. -/
def accuracy_score (yt yp : List Int) : ℚ :=
  (((yt.zip yp).countP fun p => p.1 == p.2 : Nat) : ℚ) / (yt.length : ℚ)

/-- The contribution of one positive/negative score pair to the
Mann–Whitney statistic. -/
def aucPairScore (sp sn : ℚ) : ℚ :=
  if sn < sp then 1 else if sn = sp then 1 / 2 else 0

/-- The scores of the positive-labelled examples. -/
def rocPos (pairs : List (Int × ℚ)) : List ℚ :=
  (pairs.filter fun p => p.1 == 1).map Prod.snd

/-- The scores of the negative-labelled examples. -/
def rocNeg (pairs : List (Int × ℚ)) : List ℚ :=
  (pairs.filter fun p => p.1 != 1).map Prod.snd

/-- Modelled from scikit-learn: `roc_auc_score(y_true, y_score)` for binary
labels equals the normalized Mann–Whitney statistic — the fraction of
(positive, negative) pairs where the positive example scores higher, ties
counting one half.  scikit-learn raises when only one class is present; that
degenerate case is mapped to `0` here and excluded by hypotheses. -/
def roc_auc_score (pairs : List (Int × ℚ)) : ℚ :=
  if (rocPos pairs).length = 0 ∨ (rocNeg pairs).length = 0 then 0
  else ((rocPos pairs).map fun sp =>
      ((rocNeg pairs).map fun sn => aucPairScore sp sn).sum).sum /
    (((rocPos pairs).length : ℚ) * ((rocNeg pairs).length : ℚ))

/-- Modelled from numpy: one step of a seeded pseudorandom generator; it
stands in for the MT19937 stream that `train_test_split` draws from. -/
def lcgNext (s : Nat) : Nat := (1103515245 * s + 12345) % 4294967296

/-- Modelled from scikit-learn: the shuffled index order used by
`train_test_split` is a deterministic function of the `random_state` seed;
when `random_state` is `None`, the ambient global generator state is used
instead.  The concrete rearrangement is a stand-in for numpy's shuffle. -/
def train_test_split_order (random_state : Option Nat) (ambient : Nat) (n : Nat) :
    List Nat :=
  let seed := random_state.getD ambient
  (List.range n).map fun i => (i + lcgNext seed) % n

/-- Modelled from scikit-learn: fitting the
`StandardScaler`/`LogisticRegression` pipeline is a deterministic function of
the training partition (the lbfgs solver draws no randomness); the returned
scorer is a deterministic stand-in whose exact numerics no claim depends on. -/
def fitPipeline (train : List (Int × Int)) : Int → ℚ :=
  fun x =>
    (((train.countP fun p => p.2 == 1 : Nat) : ℚ) + (x.toNat : ℚ)) /
      (((train.length : Nat) : ℚ) + 4)

/-- The training run of `entrenar_logreg` (`ml_model.py`) after the size
guard: build labels, split off a 25% test partition using the seeded order
(`random_state=42` in the source; `ambient` is the global generator state
that would be consulted had no seed been fixed), fit the pipeline on the
training partition, and score `accuracy` and `roc_auc` on the held-out part. -/
def entrenar_logreg_run (ambient : Nat) (estados : List Int) : ℚ × ℚ :=
  let y := preparar_features_objetivo estados 15
  let n := estados.length
  let order := train_test_split_order (some 42) ambient n
  let nTest := n / 4
  let testIdx := order.take nTest
  let trainIdx := order.drop nTest
  let model := fitPipeline (trainIdx.map fun i => (estados.getD i 0, y.getD i 0))
  let yTest := testIdx.map fun i => y.getD i 0
  let scores := testIdx.map fun i => model (estados.getD i 0)
  let preds := scores.map fun q => if (1 : ℚ) / 2 ≤ q then (1 : Int) else 0
  (accuracy_score yTest preds, roc_auc_score (yTest.zip scores))

/-- `get_logreg_model` of `app.py`: returns the `(None, None, None)`
"unavailable" triple (modelled as `none`) when the history CSV is missing,
when it has fewer than 100 rows, or when training raises; otherwise the
fitted model with its metrics.  The error cause is only logged via
`st.warning`, never part of the return value. -/
def get_logreg_model (file : Option (List Int)) : Option (ℚ × ℚ) :=
  match file with
  | none => none
  | some estados =>
    if estados.length < 100 then none
    else some (entrenar_logreg_run 0 estados)

/-- Whether `pat` is an initial segment of `l` (used to inspect the raised
error message). -/
def startsWithChars : List Char → List Char → Bool
  | _, [] => true
  | [], _ :: _ => false
  | a :: as, b :: bs => a == b && startsWithChars as bs

/-- Whether the character sequence `pat` occurs anywhere inside `l`. -/
def containsSeq (l pat : List Char) : Bool :=
  match l with
  | [] => startsWithChars [] pat
  | _ :: rest => startsWithChars l pat || containsSeq rest pat

/-- The end-to-end example history: 8 observations at 1-minute spacing with
states `[0, 0, 1, 2, 2, 1, 0, 0]`. -/
def histC2 : List (ℚ × Int) :=
  [(0, 0), (1, 0), (2, 1), (3, 2), (4, 2), (5, 1), (6, 0), (7, 0)]

/-- The state column of the example history after sorting by timestamp. -/
def statesC2 : List Int := (sortByTs histC2).map Prod.snd

/-! ### Evaluation lemmas for concrete histories -/

/-- Evaluate a `Pmat` entry from the two underlying counts. -/
lemma Pmat_eval (s : List Int) (i j : Fin 4) (a b : Nat)
    (h1 : cuentas s (i.val : Int) (j.val : Int) = a)
    (h2 : totalPorEstado s (i.val : Int) = b) (hb : 0 < b) :
    Pmat s i j = (a : ℚ) / (b : ℚ) := by
  simp [Pmat, h1, h2, hb]

/-- A row with no observed departures is left all-zero. -/
lemma Pmat_eval_zero (s : List Int) (i j : Fin 4)
    (h2 : totalPorEstado s (i.val : Int) = 0) :
    Pmat s i j = 0 := by
  simp [Pmat, h2]

/-- An entry whose transition was never observed is zero even when the row
itself was normalized. -/
lemma Pmat_eval_zero' (s : List Int) (i j : Fin 4)
    (h1 : cuentas s (i.val : Int) (j.val : Int) = 0)
    (hb : 0 < totalPorEstado s (i.val : Int)) :
    Pmat s i j = 0 := by
  simp [Pmat, h1, hb]

/-- Multiplying by the identity on the left is the identity. -/
lemma idMat_matMul (A : Mat4) : matMul idMat A = A := by
  funext i j
  simp [matMul, idMat, Finset.sum_ite_eq]

lemma matPow_one (A : Mat4) : matPow A 1 = A := by
  simp [matPow, idMat_matMul]

/-- A one-hot vector times a matrix selects the corresponding row. -/
lemma vecMul_oneHot (m : Fin 4) (A : Mat4) (j : Fin 4) : vecMul (oneHot m) A j = A m j := by
  simp [vecMul, oneHot, Finset.sum_ite_eq]

/-! ### Counting lemmas -/

/-- Counting pairs satisfying `q` and partitioning them by the value (in
`{0,1,2,3}`) of a component `f` recovers the total count of `q`. -/
lemma countP_fin4_partition (l : List (Int × Int)) (q : Int × Int → Bool)
    (f : Int × Int → Int)
    (hq : ∀ p, q p = true → f p = 0 ∨ f p = 1 ∨ f p = 2 ∨ f p = 3) :
    (∑ j : Fin 4, l.countP fun p => q p && (f p == ((j.val : Nat) : Int))) =
      l.countP q := by
  induction l with
  | nil => simp
  | cons a t ih =>
    simp only [List.countP_cons, Finset.sum_add_distrib, ih]
    congr 1
    by_cases hqa : q a = true
    · rcases hq a hqa with h | h | h | h <;> simp [Fin.sum_univ_four, hqa, h] <;> decide
    · have hqa' : q a = false := by
        revert hqa
        cases q a <;> simp
      simp [Fin.sum_univ_four, hqa']

lemma inEstados_iff (x : Int) :
    inEstados x = true ↔ x = 0 ∨ x = 1 ∨ x = 2 ∨ x = 3 := by
  simp only [inEstados, Bool.or_eq_true, beq_iff_eq]
  tauto

/-- Every observed transition departing from `i` arrives at one of the four
states, so the per-arrival counts of a row add up to the row total. -/
lemma sum_cuentas (s : List Int) (i : Int) :
    (∑ j : Fin 4, cuentas s i ((j.val : Nat) : Int)) = totalPorEstado s i := by
  simp only [cuentas, totalPorEstado]
  refine countP_fin4_partition (transPairs s) (validTrans i) Prod.snd ?_
  intro p hp
  have h2 : inEstados p.2 = true := by
    simp only [validTrans, Bool.and_eq_true] at hp
    exact hp.1.2
  exact (inEstados_iff p.2).mp h2

/-- Each row of the estimated matrix sums to `1` when the state was observed
departing at least once, and to `0` otherwise (the all-zero row of
`markov.py`). -/
lemma Pmat_row_sum (s : List Int) (i : Fin 4) :
    (∑ j, Pmat s i j) = if 0 < totalPorEstado s (i.val : Int) then 1 else 0 := by
  by_cases h : 0 < totalPorEstado s (i.val : Int)
  · have hne : ((totalPorEstado s (i.val : Int) : Nat) : ℚ) ≠ 0 :=
      Nat.cast_ne_zero.mpr h.ne'
    simp only [Pmat, if_pos h]
    rw [← Finset.sum_div, ← Nat.cast_sum, sum_cuentas]
    exact div_self hne
  · simp [Pmat, h]

lemma Pmat_nonneg (s : List Int) (i j : Fin 4) : 0 ≤ Pmat s i j := by
  unfold Pmat
  split
  · positivity
  · exact le_refl 0

lemma Pmat_row_sum_le_one (s : List Int) (i : Fin 4) : (∑ j, Pmat s i j) ≤ 1 := by
  rw [Pmat_row_sum]
  split <;> norm_num

/-! ### Vector and matrix algebra -/

lemma vecMul_idMat (v : Vec4) : vecMul v idMat = v := by
  funext j
  simp [vecMul, idMat, mul_ite, mul_one, mul_zero, Finset.sum_ite_eq,
    Finset.sum_ite_eq']

lemma vecMul_matMul (v : Vec4) (A B : Mat4) :
    vecMul v (matMul A B) = vecMul (vecMul v A) B := by
  funext j
  simp only [vecMul, matMul, Finset.mul_sum, Finset.sum_mul, mul_assoc]
  exact Finset.sum_comm

lemma vecMul_nonneg (v : Vec4) (M : Mat4) (hv : ∀ i, 0 ≤ v i)
    (hM : ∀ i j, 0 ≤ M i j) (j : Fin 4) : 0 ≤ vecMul v M j := by
  refine Finset.sum_nonneg ?_
  intro i _
  exact mul_nonneg (hv i) (hM i j)

/-- Projecting a sub-probability vector through a sub-stochastic matrix keeps
the total mass at most `1`. -/
lemma vecMul_sum_le (v : Vec4) (M : Mat4) (hv : ∀ i, 0 ≤ v i)
    (hs : (∑ i, v i) ≤ 1) (hM : ∀ i, (∑ j, M i j) ≤ 1) :
    (∑ j, vecMul v M j) ≤ 1 := by
  have hcomm : (∑ j, vecMul v M j) = ∑ i, v i * (∑ j, M i j) := by
    simp only [vecMul, Finset.mul_sum]
    exact Finset.sum_comm
  rw [hcomm]
  calc ∑ i, v i * (∑ j, M i j) ≤ ∑ i, v i * 1 := by
        refine Finset.sum_le_sum ?_
        intro i _
        exact mul_le_mul_of_nonneg_left (hM i) (hv i)
    _ = ∑ i, v i := by simp
    _ ≤ 1 := hs

lemma forecastVec_zero (s : List Int) (v0 : Vec4) : forecastVec s v0 0 = v0 := by
  simp [forecastVec, matPow, vecMul_idMat]

lemma forecastVec_succ (s : List Int) (v0 : Vec4) (n : Nat) :
    forecastVec s v0 (n + 1) = vecMul (forecastVec s v0 n) (Pmat s) := by
  simp [forecastVec, matPow, vecMul_matMul]

/-- The forecast distribution stays entrywise non-negative with total mass at
most `1`, for any number of steps. -/
lemma forecastVec_substoch (s : List Int) (v0 : Vec4) (h0 : ∀ i, 0 ≤ v0 i)
    (h1 : (∑ i, v0 i) ≤ 1) (pasos : Nat) :
    (∀ j, 0 ≤ forecastVec s v0 pasos j) ∧ (∑ j, forecastVec s v0 pasos j) ≤ 1 := by
  induction pasos with
  | zero =>
    rw [forecastVec_zero]
    exact ⟨h0, h1⟩
  | succ n ih =>
    rw [forecastVec_succ]
    refine ⟨vecMul_nonneg _ _ ih.1 (Pmat_nonneg s), ?_⟩
    exact vecMul_sum_le _ _ ih.1 ih.2 (Pmat_row_sum_le_one s)

lemma oneHot_nonneg (m : Fin 4) (i : Fin 4) : 0 ≤ oneHot m i := by
  unfold oneHot
  split <;> norm_num

lemma sum_oneHot (m : Fin 4) : (∑ i, oneHot m i) = 1 := by
  simp [oneHot, Finset.sum_ite_eq, Finset.sum_ite_eq']

/-- Within index range `0..3` the one-hot construction of `markov.py`
produces the one-hot vector at that state. -/
lemma mkOneHot_inRange (u : Int) (h0 : 0 ≤ u) (h4 : u < 4) :
    ∃ m : Fin 4, (m.val : Int) = u ∧ mkOneHot u = some (oneHot m) := by
  refine ⟨⟨u.toNat, by omega⟩, ?_, ?_⟩
  · show ((u.toNat : Nat) : Int) = u
    omega
  · simp only [mkOneHot, if_pos (And.intro h0 h4)]
    congr 1
    funext i
    simp only [oneHot]
    by_cases h : (i.val : Int) = u
    · rw [if_pos h, if_pos (Fin.ext (show i.val = u.toNat by omega))]
    · rw [if_neg h, if_neg ?_]
      intro hc
      apply h
      have hv : i.val = u.toNat := congrArg Fin.val hc
      omega

/-! ### The strictly periodic history -/

lemma transPairs_concat (l : List Int) (x : Int) :
    transPairs (l ++ [x]) =
      transPairs l ++ (match l.getLast? with | none => [] | some y => [(y, x)]) := by
  induction l with
  | nil => simp [transPairs]
  | cons a t ih =>
    cases t with
    | nil => simp [transPairs]
    | cons b t' =>
      have h1 : (a :: b :: t') ++ [x] = a :: ((b :: t') ++ [x]) := rfl
      have h2 : transPairs (a :: ((b :: t') ++ [x])) =
          (a, b) :: transPairs ((b :: t') ++ [x]) := rfl
      rw [h1, h2, ih]
      have h3 : transPairs (a :: b :: t') = (a, b) :: transPairs (b :: t') := rfl
      rw [h3, List.getLast?_cons_cons]
      simp

/-- The consecutive pairs of a sequence given by a function on `0..n-1`. -/
lemma transPairs_map_range (f : Nat → Int) :
    ∀ n, transPairs ((List.range n).map f) =
      (List.range (n - 1)).map (fun k => (f k, f (k + 1))) := by
  intro n
  induction n with
  | zero => simp [transPairs]
  | succ m ih =>
    cases m with
    | zero => simp [transPairs, List.range_succ]
    | succ m' =>
      rw [List.range_succ, List.map_append]
      simp only [List.map_cons, List.map_nil]
      rw [transPairs_concat, ih]
      have hlast : ((List.range (m' + 1)).map f).getLast? = some (f m') := by
        rw [List.range_succ, List.map_append]
        simp only [List.map_cons, List.map_nil]
        exact List.getLast?_concat _
      rw [hlast]
      have hr : (m' + 1 + 1 - 1) = m' + 1 := rfl
      rw [hr, List.range_succ, List.map_append]
      simp [Nat.add_sub_cancel]

/-- The state function of the periodic history. -/
lemma cyc_eq_map : ∀ n, cyc n = (List.range n).map (fun k => ((k % 4 : Nat) : Int)) :=
  fun _ => rfl

lemma transPairs_cyc (n : Nat) :
    transPairs (cyc n) =
      (List.range (n - 1)).map
        (fun k => (((k % 4 : Nat) : Int), (((k + 1) % 4 : Nat) : Int))) :=
  transPairs_map_range _ n

/-- Every state of the periodic sequence is in range. -/
lemma inEstados_mod4 (k : Nat) : inEstados ((k % 4 : Nat) : Int) = true := by
  have h : k % 4 < 4 := Nat.mod_lt k (by norm_num)
  rw [inEstados_iff]
  omega

/-- In the periodic history every transition departing from state `i` arrives
at state `i + 1` (mod 4), so the row total equals the single diagonal count. -/
lemma totalPorEstado_cyc (n : Nat) (i : Fin 4) :
    totalPorEstado (cyc n) (i.val : Int) =
      cuentas (cyc n) (i.val : Int) (((i + 1 : Fin 4).val : Nat) : Int) := by
  unfold totalPorEstado cuentas
  refine (List.countP_congr ?_).symm
  intro p hp
  rw [transPairs_cyc] at hp
  rcases List.mem_map.mp hp with ⟨k, _, rfl⟩
  cases hv : validTrans (i.val : Int) (((k % 4 : Nat) : Int), (((k + 1) % 4 : Nat) : Int)) with
  | false => simp
  | true =>
    simp only [Bool.true_and, beq_iff_eq]
    refine iff_of_true ?_ trivial
    simp only [validTrans, Bool.and_eq_true, beq_iff_eq] at hv
    have hk : k % 4 = i.val := by
      have h2 := hv.2
      omega
    have hval : (i + 1 : Fin 4).val = (i.val + 1) % 4 := by
      rw [Fin.val_add, Fin.val_one]
    show (((k + 1) % 4 : Nat) : Int) = (((i + 1 : Fin 4).val : Nat) : Int)
    rw [hval]
    omega

/-- For a non-degenerate periodic history every state departs at least once. -/
lemma totalPorEstado_cyc_pos (n : Nat) (hn : 5 ≤ n) (i : Fin 4) :
    0 < totalPorEstado (cyc n) (i.val : Int) := by
  unfold totalPorEstado
  rw [List.countP_pos_iff]
  refine ⟨(((i.val % 4 : Nat) : Int), (((i.val + 1) % 4 : Nat) : Int)), ?_, ?_⟩
  · rw [transPairs_cyc]
    exact List.mem_map.mpr ⟨i.val, List.mem_range.mpr (by omega), rfl⟩
  · have h4 : i.val % 4 = i.val := Nat.mod_eq_of_lt i.isLt
    simp only [validTrans, Bool.and_eq_true, beq_iff_eq]
    refine ⟨⟨?_, ?_⟩, ?_⟩
    · exact inEstados_mod4 _
    · exact inEstados_mod4 _
    · rw [h4]

/-- In the periodic history no transition leaves state `i` for a state other
than `i + 1` (mod 4). -/
lemma cuentas_cyc_off (n : Nat) (i j : Fin 4) (hj : j ≠ i + 1) :
    cuentas (cyc n) (i.val : Int) ((j.val : Nat) : Int) = 0 := by
  unfold cuentas
  rw [List.countP_eq_zero]
  intro p hp
  rw [transPairs_cyc] at hp
  rcases List.mem_map.mp hp with ⟨k, _, rfl⟩
  simp only [validTrans, Bool.and_eq_true, beq_iff_eq, not_and]
  intro hv
  intro hc
  apply hj
  have hk : k % 4 = i.val := by
    have h2 := hv.2
    omega
  have hjk : (k + 1) % 4 = j.val := by omega
  have hval : (i + 1 : Fin 4).val = (i.val + 1) % 4 := by
    rw [Fin.val_add, Fin.val_one]
  apply Fin.ext
  rw [hval]
  omega

/-- For `n ≥ 5` the estimated matrix of the periodic history is exactly the
cyclic permutation matrix. -/
lemma Pmat_cyc (n : Nat) (hn : 5 ≤ n) : Pmat (cyc n) = cyclicMat := by
  funext i j
  have hpos := totalPorEstado_cyc_pos n hn i
  by_cases hj : j = i + 1
  · subst hj
    have hcu : cuentas (cyc n) (i.val : Int) (((i + 1 : Fin 4).val : Nat) : Int) =
        totalPorEstado (cyc n) (i.val : Int) := (totalPorEstado_cyc n i).symm
    rw [Pmat_eval (cyc n) i (i + 1) _ _ hcu rfl hpos]
    rw [div_self (Nat.cast_ne_zero.mpr hpos.ne')]
    simp [cyclicMat]
  · rw [Pmat_eval_zero' (cyc n) i j (cuentas_cyc_off n i j hj) hpos]
    simp [cyclicMat, hj]

/-- One step of the cyclic matrix advances a one-hot distribution by one
state. -/
lemma vecMul_cyclic (m : Fin 4) : vecMul (oneHot m) cyclicMat = oneHot (m + 1) := by
  funext j
  rw [vecMul_oneHot]
  rfl

/-- `k` steps of the cyclic matrix from state 0 land on state `k mod 4`. -/
lemma forecast_cyclic (k : Nat) :
    vecMul (oneHot 0) (matPow cyclicMat k) =
      oneHot ⟨k % 4, Nat.mod_lt k (by norm_num)⟩ := by
  induction k with
  | zero =>
    have h0 : matPow cyclicMat 0 = idMat := rfl
    rw [h0, vecMul_idMat]
    refine congrArg oneHot (Fin.ext ?_)
    rfl
  | succ n ih =>
    have hs : matPow cyclicMat (n + 1) = matMul (matPow cyclicMat n) cyclicMat := rfl
    rw [hs, vecMul_matMul, ih, vecMul_cyclic]
    refine congrArg oneHot (Fin.ext ?_)
    rw [Fin.val_add, Fin.val_one]
    show (n % 4 + 1) % 4 = (n + 1) % 4
    omega

/-! ### Metric bounds -/

lemma accuracy_score_mem (yt yp : List Int) :
    0 ≤ accuracy_score yt yp ∧ accuracy_score yt yp ≤ 1 := by
  constructor
  · unfold accuracy_score
    positivity
  · unfold accuracy_score
    rcases Nat.eq_zero_or_pos yt.length with h | h
    · rw [h]
      norm_num
    · apply div_le_one_of_le₀
      · have hc : (yt.zip yp).countP (fun p => p.1 == p.2) ≤ yt.length := by
          calc (yt.zip yp).countP (fun p => p.1 == p.2) ≤ (yt.zip yp).length :=
              List.countP_le_length _
            _ = min yt.length yp.length := List.length_zip _ _
            _ ≤ yt.length := Nat.min_le_left _ _
        exact_mod_cast hc
      · positivity

lemma aucPairScore_mem (sp sn : ℚ) : 0 ≤ aucPairScore sp sn ∧ aucPairScore sp sn ≤ 1 := by
  unfold aucPairScore
  split
  · norm_num
  · split <;> norm_num

lemma list_sum_bounds (l : List ℚ) (c : ℚ) (h : ∀ x ∈ l, 0 ≤ x ∧ x ≤ c) :
    0 ≤ l.sum ∧ l.sum ≤ (l.length : ℚ) * c := by
  induction l with
  | nil => simp
  | cons a t ih =>
    have ha := h a (List.mem_cons_self a t)
    have ht := ih fun x hx => h x (List.mem_cons_of_mem a hx)
    rw [List.sum_cons, List.length_cons]
    constructor
    · exact add_nonneg ha.1 ht.1
    · have hexp : ((t.length + 1 : Nat) : ℚ) * c = (t.length : ℚ) * c + c := by
        push_cast
        ring
      rw [hexp]
      linarith [ha.2, ht.2]

/-- The normalized Mann–Whitney statistic lies in `[0, 1]` whenever both
classes occur. -/
lemma roc_auc_score_mem (pairs : List (Int × ℚ))
    (hpos : rocPos pairs ≠ []) (hneg : rocNeg pairs ≠ []) :
    0 ≤ roc_auc_score pairs ∧ roc_auc_score pairs ≤ 1 := by
  have hp : (rocPos pairs).length ≠ 0 := fun hh => hpos (List.length_eq_zero.mp hh)
  have hn : (rocNeg pairs).length ≠ 0 := fun hh => hneg (List.length_eq_zero.mp hh)
  have hinner : ∀ sp : ℚ,
      0 ≤ ((rocNeg pairs).map fun sn => aucPairScore sp sn).sum ∧
      ((rocNeg pairs).map fun sn => aucPairScore sp sn).sum ≤
        ((rocNeg pairs).length : ℚ) := by
    intro sp
    have hb := list_sum_bounds ((rocNeg pairs).map fun sn => aucPairScore sp sn) 1 ?_
    · rw [List.length_map] at hb
      exact ⟨hb.1, by linarith [hb.2]⟩
    · intro x hx
      rcases List.mem_map.mp hx with ⟨sn, _, rfl⟩
      exact aucPairScore_mem sp sn
  have hmem : ∀ x ∈ (rocPos pairs).map
      fun sp => ((rocNeg pairs).map fun sn => aucPairScore sp sn).sum,
      0 ≤ x ∧ x ≤ ((rocNeg pairs).length : ℚ) := by
    intro x hx
    rcases List.mem_map.mp hx with ⟨sp, _, rfl⟩
    exact hinner sp
  have houter := list_sum_bounds _ _ hmem
  rw [List.length_map] at houter
  unfold roc_auc_score
  rw [if_neg (by push_neg; exact ⟨hp, hn⟩)]
  constructor
  · exact div_nonneg houter.1 (by positivity)
  · apply div_le_one_of_le₀
    · exact houter.2
    · positivity

/-! ## Claims -/

/-- C1: the claim says every row of the estimated matrix sums to 1, with
never-departed states given a self-loop row.  The code instead leaves such
rows all-zero: for the history with states `[0, 1]` (state 1 never observed
departing), row 1 of the matrix sums to 0, not 1. -/
theorem C1_zero_row_not_stochastic :
    (∑ j : Fin 4, Pmat [0, 1] 1 j) = 0 ∧ (∑ j : Fin 4, Pmat [0, 1] 1 j) ≠ 1 := by
  have h2 : totalPorEstado [0, 1] (((1 : Fin 4).val : Nat) : Int) = 0 := by decide
  have hs : (∑ j : Fin 4, Pmat [0, 1] 1 j) = 0 := by
    simp [Fin.sum_univ_four, Pmat_eval_zero _ _ _ h2]
  exact ⟨hs, by rw [hs]; norm_num⟩

/-- C2: on the 8-observation example history the consecutive-pair counts are
`C[0][0]=2, C[0][1]=1, C[1][2]=1, C[2][2]=1, C[2][1]=1, C[1][0]=1`, the
normalized first row is `[2/3, 1/3, 0, 0]`, and the one-step forecast from
the one-hot distribution at state 0 equals `[2/3, 1/3, 0, 0]`. -/
theorem C2_end_to_end_example :
    cuentas statesC2 0 0 = 2 ∧ cuentas statesC2 0 1 = 1 ∧ cuentas statesC2 1 2 = 1 ∧
    cuentas statesC2 2 2 = 1 ∧ cuentas statesC2 2 1 = 1 ∧ cuentas statesC2 1 0 = 1 ∧
    Pmat statesC2 0 0 = 2 / 3 ∧ Pmat statesC2 0 1 = 1 / 3 ∧
    Pmat statesC2 0 2 = 0 ∧ Pmat statesC2 0 3 = 0 ∧
    forecastVec statesC2 (oneHot 0) 1 0 = 2 / 3 ∧
    forecastVec statesC2 (oneHot 0) 1 1 = 1 / 3 ∧
    forecastVec statesC2 (oneHot 0) 1 2 = 0 ∧
    forecastVec statesC2 (oneHot 0) 1 3 = 0 := by
  have hrow0 : Pmat statesC2 0 0 = 2 / 3 := by
    rw [Pmat_eval _ _ _ 2 3 (by decide) (by decide) (by norm_num)]
    norm_num
  have hrow1 : Pmat statesC2 0 1 = 1 / 3 := by
    rw [Pmat_eval _ _ _ 1 3 (by decide) (by decide) (by norm_num)]
    norm_num
  have hrow2 : Pmat statesC2 0 2 = 0 :=
    Pmat_eval_zero' _ _ _ (by decide) (by decide)
  have hrow3 : Pmat statesC2 0 3 = 0 :=
    Pmat_eval_zero' _ _ _ (by decide) (by decide)
  have hfore : ∀ j, forecastVec statesC2 (oneHot 0) 1 j = Pmat statesC2 0 j := by
    intro j
    rw [forecastVec, matPow_one, vecMul_oneHot]
  refine ⟨by decide, by decide, by decide, by decide, by decide, by decide,
    hrow0, hrow1, hrow2, hrow3, ?_, ?_, ?_, ?_⟩
  · rw [hfore 0, hrow0]
  · rw [hfore 1, hrow1]
  · rw [hfore 2, hrow2]
  · rw [hfore 3, hrow3]

/-- C3: the claim (and the docstring of `preparar_features`) says the
trailing `horizon` rows are discarded, leaving `n - horizon` labelled
examples.  In `ml_model.py`/`ml_modelos.py` the comparison is cast to `int`
before `dropna`, so nothing is dropped: on states `[0, 0, 3]` with horizon 1
the builder keeps all 3 rows and labels the unlabelable last row `0`.
`modelos.py` (`train_logreg`) does drop the trailing rows as claimed. -/
theorem C3_trailing_rows_kept :
    preparar_features_objetivo [0, 0, 3] 1 = [0, 1, 0] ∧
    (preparar_features_objetivo [0, 0, 3] 1).length = 3 ∧
    train_logreg_y (List.replicate 16 0 ++ [3]) = [0, 1] :=
  ⟨by decide, by decide, by decide⟩

/-- C4 (amended): a history of fewer than 100 rows is rejected with the fixed
`ValueError` message (which names the required count, 100, but not the actual
count); 100 rows pass the size check; and the evaluation metrics — accuracy
always, ROC-AUC whenever both classes occur — lie in `[0, 1]`. -/
theorem C4_training_gate_and_metrics :
    (∀ n : Nat, n < 100 → entrenar_logreg_gate n = Except.error insufficientMsg) ∧
    entrenar_logreg_gate 100 = Except.ok () ∧
    (∀ yt yp : List Int, 0 ≤ accuracy_score yt yp ∧ accuracy_score yt yp ≤ 1) ∧
    (∀ pairs : List (Int × ℚ), rocPos pairs ≠ [] → rocNeg pairs ≠ [] →
      0 ≤ roc_auc_score pairs ∧ roc_auc_score pairs ≤ 1) := by
  refine ⟨?_, rfl, accuracy_score_mem, roc_auc_score_mem⟩
  intro n hn
  simp [entrenar_logreg_gate, hn]

/-- C4 witness: the gate rejects 99 rows, and both metrics are within bounds
on concrete data. -/
theorem C4_witness :
    entrenar_logreg_gate 99 = Except.error insufficientMsg ∧
    (0 ≤ accuracy_score [1, 0] [1, 1] ∧ accuracy_score [1, 0] [1, 1] ≤ 1) ∧
    (0 ≤ roc_auc_score [(1, 1), (0, 0)] ∧ roc_auc_score [(1, 1), (0, 0)] ≤ 1) :=
  ⟨C4_training_gate_and_metrics.1 99 (by norm_num),
    C4_training_gate_and_metrics.2.2.1 [1, 0] [1, 1],
    C4_training_gate_and_metrics.2.2.2 [(1, 1), (0, 0)] (by decide) (by decide)⟩

/-- C4 counterexample: at 99 rows the raised message contains the required
count `100` but not the actual count `99`, so the error does not name the
actual count as the claim requires. -/
theorem C4_counterexample_message :
    entrenar_logreg_gate 99 = Except.error insufficientMsg ∧
    containsSeq insufficientMsg.toList "99".toList = false ∧
    containsSeq insufficientMsg.toList "100".toList = true :=
  ⟨rfl, by decide, by decide⟩

/-- C5: on the strictly periodic history `0,1,2,3,0,1,2,3,…` (of any length
at least 5, so that every state is observed departing) the estimated matrix
is exactly the cyclic permutation matrix, and the `k`-step forecast from the
one-hot distribution at state 0 is the one-hot vector at state `k mod 4`. -/
theorem C5_periodic_cycle (n k : Nat) (hn : 5 ≤ n) :
    Pmat (cyc n) = cyclicMat ∧
    vecMul (oneHot 0) (matPow (Pmat (cyc n)) k) =
      oneHot ⟨k % 4, Nat.mod_lt k (by norm_num)⟩ := by
  have hP := Pmat_cyc n hn
  exact ⟨hP, by rw [hP]; exact forecast_cyclic k⟩

/-- C5 witness: the two-cycle history of length 8 with a 5-step forecast. -/
theorem C5_periodic_cycle_witness :
    Pmat (cyc 8) = cyclicMat ∧
    vecMul (oneHot 0) (matPow (Pmat (cyc 8)) 5) =
      oneHot ⟨5 % 4, Nat.mod_lt 5 (by norm_num)⟩ :=
  C5_periodic_cycle 8 5 (by norm_num)

/-- C6 (amended): out-of-range raw states are not clipped at ingestion;
instead every consecutive pair containing an out-of-range state is skipped by
the counting loop, so only in-range pairs ever reach the counts.  Concretely,
for the history `[0, 7]` the pair `(0, 7)` contributes nothing, whereas
clipping `7` to `3` would have produced `C[0][3] = 1`. -/
theorem C6_out_of_range_skipped :
    (∀ s : List Int, (∑ i : Fin 4, totalPorEstado s ((i.val : Nat) : Int)) =
      (transPairs s).countP fun p => inEstados p.1 && inEstados p.2) ∧
    totalPorEstado [0, 7] 0 = 0 ∧
    cuentas [0, 7] 0 3 = 0 ∧
    cuentas [0, 3] 0 3 = 1 := by
  refine ⟨?_, by decide, by decide, by decide⟩
  intro s
  simp only [totalPorEstado, validTrans]
  refine countP_fin4_partition (transPairs s)
    (fun p => inEstados p.1 && inEstados p.2) Prod.fst ?_
  intro p hp
  rw [Bool.and_eq_true] at hp
  exact (inEstados_iff p.1).mp hp.1

/-- C6 counterexample: the claim says every input row contributes to the
transition counts after clipping; on the history `[0, 7]` the single
consecutive pair is silently skipped and every count stays zero. -/
theorem C6_counterexample :
    ¬ (∀ s : List Int, s ≠ [] →
        (∑ i : Fin 4, totalPorEstado s ((i.val : Nat) : Int)) = s.length - 1) := by
  intro h
  have h1 := h [0, 7] (by simp)
  have h2 : (∑ i : Fin 4, totalPorEstado [0, 7] ((i.val : Nat) : Int)) = 0 := by
    rw [Fin.sum_univ_four]
    decide
  rw [h2] at h1
  simp at h1

/-- C7 (amended): `predict_congestion` exposes no caller-supplied initial
distribution — it always builds the one-hot vector of the last observed state
internally — and performs no sum-to-one validation: no execution produces an
`InvalidDistributionError`. -/
theorem C7_no_invalid_distribution_error :
    ∀ (hist : List (ℚ × Int)) (pasos : Nat),
      isInvalidDistError (predict_congestion hist pasos) = false := by
  intro hist pasos
  cases h : ((sortByTs hist).map Prod.snd).getLast? with
  | none => simp [predict_congestion, predictFromStates, h, isInvalidDistError]
  | some u =>
    cases hmk : mkOneHot u with
    | none => simp [predict_congestion, predictFromStates, h, hmk, isInvalidDistError]
    | some v0 => simp [predict_congestion, predictFromStates, h, hmk, isInvalidDistError]

/-- C7 counterexample: even when the internal distribution construction
fails (last raw state 7, outside every addressable index), the operation
raises an `IndexError` rather than rejecting with an
`InvalidDistributionError`. -/
theorem C7_counterexample :
    ¬ (∀ (hist : List (ℚ × Int)) (pasos : Nat) (u : Int),
        ((sortByTs hist).map Prod.snd).getLast? = some u → mkOneHot u = none →
        predict_congestion hist pasos = Except.error MarkovError.invalidDistribution) := by
  intro h
  have h1 := h [(0, 0), (1, 7)] 15 7 rfl rfl
  have h2 : predict_congestion [(0, 0), (1, 7)] 15 =
      Except.error MarkovError.indexError := rfl
  rw [h2] at h1
  simp at h1

/-- C8 (amended): the logistic façade returns the indistinct `(None, None,
None)` triple on a missing file or a history of fewer than 100 rows (the
error kind is only logged, not returned), while the Markov entry point has no
guard at all and raises an `IndexError` on an empty history. -/
theorem C8_unavailable_paths :
    (∀ s : List Int, s.length < 100 → get_logreg_model (some s) = none) ∧
    get_logreg_model none = none ∧
    (∀ pasos : Nat, predict_congestion [] pasos = Except.error MarkovError.indexError) := by
  refine ⟨?_, rfl, fun pasos => rfl⟩
  intro s hs
  simp [get_logreg_model, hs]

/-- C8 witness: a one-row history yields the unavailable triple, and the
empty history makes the Markov path raise. -/
theorem C8_unavailable_paths_witness :
    get_logreg_model (some [0]) = none ∧
    predict_congestion [] 15 = Except.error MarkovError.indexError :=
  ⟨C8_unavailable_paths.1 [0] (by norm_num), C8_unavailable_paths.2.2 15⟩

/-- C8 counterexample: a missing file and an empty history produce the very
same `none` result (no error kind is surfaced), and the Markov entry point
raises instead of returning an unavailable value. -/
theorem C8_counterexample :
    get_logreg_model none = get_logreg_model (some []) ∧
    get_logreg_model (some []) = none ∧
    predict_congestion [] 15 = Except.error MarkovError.indexError :=
  ⟨rfl, rfl, rfl⟩

/-- C9: the train/test split seed is fixed at 42 in the source, so the split
order and the resulting metrics do not depend on the ambient state of the
global random generator: two runs on equal input agree exactly. -/
theorem C9_seed_determinism :
    ∀ (ambient1 ambient2 : Nat) (estados : List Int),
      train_test_split_order (some 42) ambient1 estados.length =
        train_test_split_order (some 42) ambient2 estados.length ∧
      entrenar_logreg_run ambient1 estados = entrenar_logreg_run ambient2 estados :=
  fun _ _ _ => ⟨rfl, rfl⟩

/-- C10 (amended): for every history whose last observation is in range
`{0,1,2,3}` and every horizon, the forecast distribution is entrywise
non-negative with total mass at most 1, the returned congestion probability
`pi_n[2]` lies in `[0, 1]`, and the mass can be strictly below 1 (history
`[0, 1]`, one step: the all-zero row of state 1 leaks all mass). -/
theorem C10_forecast_subprobability :
    (∀ (s : List Int) (pasos : Nat) (u : Int),
        s.getLast? = some u → 0 ≤ u → u < 4 →
        ∃ v0 : Vec4, mkOneHot u = some v0 ∧
          (∀ j, 0 ≤ forecastVec s v0 pasos j) ∧
          (∑ j, forecastVec s v0 pasos j) ≤ 1 ∧
          predictFromStates s pasos = Except.ok (forecastVec s v0 pasos 2) ∧
          0 ≤ forecastVec s v0 pasos 2 ∧ forecastVec s v0 pasos 2 ≤ 1) ∧
    (∑ j, forecastVec [0, 1] (oneHot 1) 1 j) < 1 := by
  constructor
  · intro s pasos u hlast h0 h4
    obtain ⟨m, hm, hmk⟩ := mkOneHot_inRange u h0 h4
    have hsub := forecastVec_substoch s (oneHot m) (oneHot_nonneg m)
      (by rw [sum_oneHot]) pasos
    refine ⟨oneHot m, hmk, hsub.1, hsub.2, ?_, hsub.1 2, ?_⟩
    · simp [predictFromStates, hlast, hmk]
    · calc forecastVec s (oneHot m) pasos 2
          ≤ ∑ j, forecastVec s (oneHot m) pasos j :=
            Finset.single_le_sum (fun j _ => hsub.1 j) (Finset.mem_univ 2)
        _ ≤ 1 := hsub.2
  · have h2 : totalPorEstado [0, 1] (((1 : Fin 4).val : Nat) : Int) = 0 := by decide
    have hz : ∀ j, forecastVec [0, 1] (oneHot 1) 1 j = 0 := by
      intro j
      rw [forecastVec, matPow_one, vecMul_oneHot]
      exact Pmat_eval_zero _ _ _ h2
    rw [Fin.sum_univ_four, hz 0, hz 1, hz 2, hz 3]
    norm_num

/-- C10 witness: the concrete history `[0, 2]` with a 3-step horizon. -/
theorem C10_forecast_subprobability_witness :
    ∃ v0 : Vec4, mkOneHot 2 = some v0 ∧
      (∀ j, 0 ≤ forecastVec [0, 2] v0 3 j) ∧
      (∑ j, forecastVec [0, 2] v0 3 j) ≤ 1 ∧
      predictFromStates [0, 2] 3 = Except.ok (forecastVec [0, 2] v0 3 2) ∧
      0 ≤ forecastVec [0, 2] v0 3 2 ∧ forecastVec [0, 2] v0 3 2 ≤ 1 :=
  C10_forecast_subprobability.1 [0, 2] 3 2 rfl (by norm_num) (by norm_num)

/-- C10 counterexample: a history containing an in-range observation but
ending on the out-of-range raw state 7 makes the predictor raise an
`IndexError` instead of returning a probability in `[0, 1]`. -/
theorem C10_counterexample :
    ¬ (∀ (hist : List (ℚ × Int)) (pasos : Nat),
        (∃ o ∈ hist, inEstados o.2 = true) →
        ∃ q : ℚ, predict_congestion hist pasos = Except.ok q ∧ 0 ≤ q ∧ q ≤ 1) := by
  intro h
  obtain ⟨q, hq, _⟩ := h [(0, 1), (1, 7)] 15 ⟨(0, 1), List.mem_cons_self _ _, rfl⟩
  have h2 : predict_congestion [(0, 1), (1, 7)] 15 =
      Except.error MarkovError.indexError := rfl
  rw [h2] at hq
  exact Except.noConfusion hq
